import Mathlib

/-!
Verification development for the clawdis repository.

Part 1 embeds `src/infra/provider-usage.ts` (usage-window formatting):
JavaScript numbers are modelled by `JSNum` (a rational together with the
three non-finite IEEE values), and the formatting pipeline
`clampPercent` / `pickPrimaryWindow` / `formatWindowShort` /
`formatUsageSummaryLine` / `formatUsageReportLines` is translated
function by function.

Part 2 models the background job execution engine (`/bash`): the
repository ships only the engine's tests (`commands.test.ts`), not
`bash-command.ts` itself, so the engine is modelled from the spec
(sections 3 to 5: Job Record, Job Lock, Lifecycle Controller,
Dispatcher) and the claims are settled against that model.
-/

/-- A JavaScript `number` as used by the usage-formatting code: either a
finite value (modelled as a rational) or one of the non-finite IEEE
values `NaN`, `Infinity`, `-Infinity`. -/
inductive JSNum
  | finite (q : ℚ)
  | nan
  | inf
  | negInf
deriving DecidableEq

/-- JavaScript `Number.isFinite`. -/
def JSNum.isFinite : JSNum → Bool
  | JSNum.finite _ => true
  | _ => false

/-- The rational value of a finite `JSNum` (0 for the non-finite values;
only ever used under an `isFinite` guard, matching the source's
`Number.isFinite(value) ? value : 0`). -/
def JSNum.toQ : JSNum → ℚ
  | JSNum.finite q => q
  | _ => 0

/-- JavaScript strict `>` on numbers: false whenever either side is
`NaN`, the usual order otherwise. -/
def jgt : JSNum → JSNum → Bool
  | JSNum.finite a, JSNum.finite b => decide (b < a)
  | JSNum.inf, JSNum.finite _ => true
  | JSNum.inf, JSNum.negInf => true
  | JSNum.finite _, JSNum.negInf => true
  | _, _ => false

/-- JavaScript `>=` on numbers: false whenever either side is `NaN`. -/
def jge : JSNum → JSNum → Bool
  | JSNum.finite a, JSNum.finite b => decide (b ≤ a)
  | JSNum.inf, JSNum.finite _ => true
  | JSNum.inf, JSNum.negInf => true
  | JSNum.inf, JSNum.inf => true
  | JSNum.finite _, JSNum.negInf => true
  | JSNum.negInf, JSNum.negInf => true
  | _, _ => false

/-- JavaScript subtraction on numbers (`100 - window.usedPercent` in the
source): `NaN` is absorbing, `Infinity - Infinity` is `NaN`. -/
def jsub : JSNum → JSNum → JSNum
  | JSNum.finite a, JSNum.finite b => JSNum.finite (a - b)
  | JSNum.nan, _ => JSNum.nan
  | _, JSNum.nan => JSNum.nan
  | JSNum.inf, JSNum.inf => JSNum.nan
  | JSNum.inf, _ => JSNum.inf
  | JSNum.negInf, JSNum.negInf => JSNum.nan
  | JSNum.negInf, _ => JSNum.negInf
  | JSNum.finite _, JSNum.inf => JSNum.negInf
  | JSNum.finite _, JSNum.negInf => JSNum.inf

/-- `UsageWindow` from provider-usage.ts: `resetAt` is an optional epoch
timestamp in milliseconds. -/
structure UsageWindow where
  label : String
  usedPercent : JSNum
  resetAt : Option ℚ
deriving DecidableEq

/-- `ProviderUsageSnapshot` from provider-usage.ts. The provider id and
display name are opaque strings here. -/
structure ProviderUsageSnapshot where
  provider : String
  displayName : String
  windows : List UsageWindow
  plan : Option String
  error : Option String
deriving DecidableEq

/-- `UsageSummary` from provider-usage.ts. -/
structure UsageSummary where
  updatedAt : ℚ
  providers : List ProviderUsageSnapshot
deriving DecidableEq

/-- JavaScript truthiness of an optional string (`entry.error` etc.):
true exactly when present and non-empty. -/
def strTruthy : Option String → Bool
  | none => false
  | some s => !s.isEmpty

/-- `clampPercent` from provider-usage.ts:
`Math.max(0, Math.min(100, Number.isFinite(value) ? value : 0))`.
The ternary guarantees the inner value is finite, so the result is a
plain rational. -/
def clampPercent (value : JSNum) : ℚ :=
  max 0 (min 100 (if value.isFinite then value.toQ else 0))

/-- JavaScript `Number.prototype.toFixed(0)`: the closest integer, ties
away from the larger value (round half up), rendered as a string. -/
def toFixed0 (q : ℚ) : String :=
  toString ⌊q + 1 / 2⌋

/-- Models the ambient clock `Date.now()` used when no `now` option is
supplied; the claims are independent of its value. -/
def dateNowModel : ℚ := 0

/-- `formatResetRemaining` from provider-usage.ts. A missing or zero
`targetMs` is falsy in JS, so both yield `null`. The final branch of the
source renders a month/day calendar date through `Intl.DateTimeFormat`;
that locale-library rendering is modelled as the raw timestamp, which no
claim depends on. -/
def formatResetRemaining (targetMs : Option ℚ) (now : Option ℚ) : Option String :=
  match targetMs with
  | none => none
  | some t =>
    if t = 0 then none
    else
      let base := now.getD dateNowModel
      let diffMs := t - base
      if diffMs ≤ 0 then some "now"
      else
        let diffMins : ℤ := (diffMs / 60000).floor
        if diffMins < 60 then some (toString diffMins ++ "m")
        else
          let hours : ℤ := diffMins / 60
          let mins : ℤ := diffMins % 60
          if hours < 24 then
            if 0 < mins then some (toString hours ++ "h " ++ toString mins ++ "m")
            else some (toString hours ++ "h")
          else
            let days : ℤ := hours / 24
            if days < 7 then some (toString days ++ "d " ++ toString (hours % 24) ++ "h")
            else some (toString t)

/-- `pickPrimaryWindow` from provider-usage.ts: `windows.reduce((best,
next) => next.usedPercent > best.usedPercent ? next : best)` — `reduce`
without a seed folds the tail with the head as the initial accumulator,
and is undefined (`undefined` here: `none`) on an empty array. -/
def pickPrimaryWindow : List UsageWindow → Option UsageWindow
  | [] => none
  | w :: ws =>
    some (ws.foldl (fun best next => if jgt next.usedPercent best.usedPercent then next else best) w)

/-- The remaining percentage computed by `formatWindowShort` and by
`formatUsageReportLines`: `clampPercent(100 - window.usedPercent)` (the
source inlines this expression at both call sites). -/
def windowRemaining (w : UsageWindow) : ℚ :=
  clampPercent (jsub (JSNum.finite 100) w.usedPercent)

/-- `formatWindowShort` from provider-usage.ts. -/
def formatWindowShort (w : UsageWindow) (now : Option ℚ) : String :=
  let remaining := windowRemaining w
  let resetSuffix :=
    match formatResetRemaining w.resetAt now with
    | none => ""
    | some reset => " ⏱" ++ reset
  toFixed0 remaining ++ "% left (" ++ w.label ++ resetSuffix ++ ")"

/-- `formatUsageSummaryLine` from provider-usage.ts. The two option
fields `now` and `maxProviders` are passed separately; default options
mean both `none`. `.filter(Boolean)` on the parts drops both `null`
entries (the `filterMap`) and empty strings. -/
def formatUsageSummaryLine (summary : UsageSummary) (optNow : Option ℚ)
    (optMaxProviders : Option Nat) : Option String :=
  let providers :=
    (summary.providers.filter fun e => !e.windows.isEmpty && !strTruthy e.error).take
      (optMaxProviders.getD summary.providers.length)
  if providers.isEmpty then none
  else
    let parts :=
      (providers.filterMap fun e =>
        match pickPrimaryWindow e.windows with
        | none => none
        | some w => some (e.displayName ++ " " ++ formatWindowShort w optNow)).filter
        (fun s => !s.isEmpty)
    if parts.isEmpty then none
    else some ("📊 Usage: " ++ String.intercalate " · " parts)

/-- `formatUsageReportLines` from provider-usage.ts. -/
def formatUsageReportLines (summary : UsageSummary) (optNow : Option ℚ) : List String :=
  if summary.providers.isEmpty then ["Usage: no provider usage available."]
  else
    let entryLines := fun (entry : ProviderUsageSnapshot) =>
      let planSuffix :=
        match entry.plan with
        | none => ""
        | some p => " (" ++ p ++ ")"
      match entry.error with
      | some err =>
        if !err.isEmpty then ["  " ++ entry.displayName ++ planSuffix ++ ": " ++ err]
        else
          if entry.windows.isEmpty then ["  " ++ entry.displayName ++ planSuffix ++ ": no data"]
          else
            ("  " ++ entry.displayName ++ planSuffix) ::
              entry.windows.map fun w =>
                let resetSuffix :=
                  match formatResetRemaining w.resetAt optNow with
                  | none => ""
                  | some reset => " · resets " ++ reset
                "    " ++ w.label ++ ": " ++ toFixed0 (windowRemaining w) ++ "% left" ++ resetSuffix
      | none =>
        if entry.windows.isEmpty then ["  " ++ entry.displayName ++ planSuffix ++ ": no data"]
        else
          ("  " ++ entry.displayName ++ planSuffix) ::
            entry.windows.map fun w =>
              let resetSuffix :=
                match formatResetRemaining w.resetAt optNow with
                | none => ""
                | some reset => " · resets " ++ reset
              "    " ++ w.label ++ ": " ++ toFixed0 (windowRemaining w) ++ "% left" ++ resetSuffix
    "Usage:" :: summary.providers.flatMap entryLines

/-- Modelled from the spec: the status of a Job Record (spec section 3 /
4.2); `bash-command.ts` is not shipped under src, only its tests. -/
inductive Status
  | running
  | completed
  | stopped
  | failed
deriving DecidableEq

/-- Modelled from the spec: a Job Record (spec section 3), one per shell
invocation. `bash-command.ts` is absent from src, so the record is
modelled from the spec's data model. -/
structure JobRecord where
  id : Nat
  command : String
  startedAt : Nat
  status : Status
  exitCode : Option Int
  outputTail : String
  elevated : Bool
deriving DecidableEq

/-- Modelled from the spec: the engine's process-wide mutable state
(spec sections 3 and 5): the single-slot Job Lock, the retained Job
Records, a fresh-id counter, the AI agent's own run state (opaque to the
engine, tracked only to state frame conditions), and the ids of jobs for
which a process was actually spawned. -/
structure EngineState where
  lock : Option Nat
  jobs : List JobRecord
  nextId : Nat
  agentRun : Nat
  spawned : List Nat
deriving DecidableEq

/-- Modelled from the spec: the outcome of the foreground race for a
newly started job — the process finishes before `maxWaitMs` (with exit
code and output), the wait window elapses first, or the spawn itself
fails (spec section 4.2). -/
inductive ProcEvent
  | finishes (code : Int) (out : String)
  | timesOut
  | spawnFail
deriving DecidableEq

/-- Modelled from the spec: the replies the Dispatcher renders (spec
sections 4.1 and 7). -/
inductive Reply
  | alreadyRunning (id : Nat)
  | permissionDenied
  | inlineDone (exitCode : Int) (output : String)
  | backgrounded (id : Nat)
  | spawnFailed
  | pollStatus (status : Status) (exitCode : Option Int) (output : String)
  | stopConfirmed (id : Nat)
  | notFound
  | nothingToStop
deriving DecidableEq

/-- The empty engine state before any job has run. -/
def initState : EngineState :=
  { lock := none, jobs := [], nextId := 0, agentRun := 0, spawned := [] }

/-- Look a Job Record up by id. -/
def findJob (jobs : List JobRecord) (id : Nat) : Option JobRecord :=
  jobs.find? fun r => r.id == id

/-- Modelled from the spec: a fresh Job Record at start time — command
taken verbatim, status `running` handled by the caller, elevated
execution always requested for `/bash` (spec sections 3 and 4.1). -/
def newRecord (id : Nat) (cmd : String) (now : Nat) (st : Status)
    (code : Option Int) (out : String) : JobRecord :=
  { id := id, command := cmd, startedAt := now, status := st, exitCode := code,
    outputTail := out, elevated := true }

/-- Modelled from the spec: the terminal transition shared by natural
completion, stale-poll reconciliation and stop — set `status`/`exitCode`
and append any final output to `outputTail` (spec section 4.2). -/
def finalizeRecord (r : JobRecord) (st : Status) (code : Option Int) (out : String) : JobRecord :=
  { r with status := st, exitCode := code, outputTail := r.outputTail ++ out }

/-- Modelled from the spec: the idempotent finalization used by the
completion handler, by stale-poll reconciliation and by stop. If the
record exists and is still `running`, it performs the terminal
transition and releases the Job Lock only if the lock currently holds
this record's id; otherwise it observes a terminal state and no-ops
(spec sections 4.2 and 5). -/
def finalizeCompletion (s : EngineState) (id : Nat) (st : Status)
    (code : Option Int) (out : String) : EngineState :=
  match findJob s.jobs id with
  | none => s
  | some r =>
    if r.status = Status.running then
      { s with
        jobs := s.jobs.map fun j => if j.id = id then finalizeRecord j st code out else j,
        lock := if s.lock = some id then none else s.lock }
    else s

/-- Modelled from the spec: the one-time completion handler registered
with the Process Runner at start time (spec section 4.2). -/
def completionHandler (s : EngineState) (id : Nat) (code : Int) (out : String) : EngineState :=
  finalizeCompletion s id Status.completed (some code) out

/-- Modelled from the spec: the state produced by backgrounding a fresh
job — record `running`, Job Lock set to its id, process spawned (spec
sections 4.1 and 4.2). -/
def backgroundStart (s : EngineState) (cmd : String) (now : Nat) : EngineState × Reply :=
  ({ s with
      jobs := s.jobs ++ [newRecord s.nextId cmd now Status.running none ""],
      nextId := s.nextId + 1,
      lock := some s.nextId,
      spawned := s.spawned ++ [s.nextId] },
   Reply.backgrounded s.nextId)

/-- Modelled from the spec: the Dispatcher's start path plus the
Lifecycle Controller's foreground race (spec sections 4.1 and 4.2). A
held lock yields `alreadyRunning` with the running id and no side
effect; a denied elevation yields `permissionDenied` with no side
effect; a spawn failure marks the record `failed` with the lock never
held; otherwise the race outcome decides between the inline completion
and the backgrounded acknowledgement, with `maxWaitMs = 0` skipping the
race entirely. -/
def handleStart (s : EngineState) (cmd : String) (authorized : Bool)
    (maxWaitMs : Nat) (now : Nat) (ev : ProcEvent) : EngineState × Reply :=
  match s.lock with
  | some runningId => (s, Reply.alreadyRunning runningId)
  | none =>
    if authorized = false then (s, Reply.permissionDenied)
    else
      match ev with
      | ProcEvent.spawnFail =>
        ({ s with
            jobs := s.jobs ++ [newRecord s.nextId cmd now Status.failed none ""],
            nextId := s.nextId + 1 },
         Reply.spawnFailed)
      | ProcEvent.finishes code out =>
        if maxWaitMs = 0 then backgroundStart s cmd now
        else
          ({ s with
              jobs := s.jobs ++ [newRecord s.nextId cmd now Status.completed (some code) out],
              nextId := s.nextId + 1,
              spawned := s.spawned ++ [s.nextId] },
           Reply.inlineDone code out)
      | ProcEvent.timesOut => backgroundStart s cmd now

/-- Modelled from the spec: the poll path's target resolution — an
explicit id, else the most recent Job Record whether or not still
running (spec section 4.1). -/
def resolvePollTarget (s : EngineState) (target : Option Nat) : Option JobRecord :=
  match target with
  | some id => findJob s.jobs id
  | none => s.jobs.getLast?

/-- Modelled from the spec: the Dispatcher's poll path (spec section
4.1). `runnerExit` is the Process Runner's non-blocking report: `some
(code, out)` when the underlying process has exited, `none` while it is
alive. A record still `running` whose process has exited is reconciled
(finalized, lock released) before the reply is composed. -/
def handlePoll (s : EngineState) (target : Option Nat)
    (runnerExit : Option (Int × String)) : EngineState × Reply :=
  match resolvePollTarget s target with
  | none => (s, Reply.notFound)
  | some r =>
    if r.status = Status.running then
      match runnerExit with
      | some (code, out) =>
        (finalizeCompletion s r.id Status.completed (some code) out,
         Reply.pollStatus Status.completed (some code) (r.outputTail ++ out))
      | none => (s, Reply.pollStatus r.status r.exitCode r.outputTail)
    else (s, Reply.pollStatus r.status r.exitCode r.outputTail)

/-- Modelled from the spec: the stop path's target resolution — an
explicit id, else the currently running job named by the Job Lock (spec
section 4.1). -/
def resolveStopTarget (s : EngineState) (target : Option Nat) : Option JobRecord :=
  match target with
  | some id => findJob s.jobs id
  | none =>
    match s.lock with
    | some id => findJob s.jobs id
    | none => none

/-- Modelled from the spec: the Dispatcher's stop path (spec section
4.1): kill the process tree, transition to `stopped`, release the Job
Lock and confirm with the id; an unknown target is reported without any
state change, and a found but already-terminal record leaves nothing to
stop. The AI agent's run state is never touched. -/
def handleStop (s : EngineState) (target : Option Nat) : EngineState × Reply :=
  match resolveStopTarget s target with
  | none => (s, Reply.notFound)
  | some r =>
    if r.status = Status.running then
      (finalizeCompletion s r.id Status.stopped none "", Reply.stopConfirmed r.id)
    else (s, Reply.nothingToStop)

/-- Modelled from the spec: the reachable engine states — everything the
interleaved chat messages can produce from the initial state through the
Dispatcher's start/poll/stop paths and the Process Runner's completion
callback (spec section 5's cooperative interleaving model). -/
inductive Reachable : EngineState → Prop
  | init : Reachable initState
  | start (s : EngineState) (cmd : String) (authorized : Bool) (maxWaitMs now : Nat)
      (ev : ProcEvent) : Reachable s → Reachable (handleStart s cmd authorized maxWaitMs now ev).1
  | poll (s : EngineState) (target : Option Nat) (runnerExit : Option (Int × String)) :
      Reachable s → Reachable (handlePoll s target runnerExit).1
  | stop (s : EngineState) (target : Option Nat) :
      Reachable s → Reachable (handleStop s target).1
  | complete (s : EngineState) (id : Nat) (code : Int) (out : String) :
      Reachable s → Reachable (completionHandler s id code out)

/-- The engine's structural invariant: record ids are bounded by the
fresh-id counter, pairwise distinct, and every `running` record's id is
held by the Job Lock. -/
def EngineInv (s : EngineState) : Prop :=
  (∀ r ∈ s.jobs, r.id < s.nextId) ∧
  (s.jobs.map fun r => r.id).Nodup ∧
  (∀ r ∈ s.jobs, r.status = Status.running → s.lock = some r.id)

/-- A record found by id is a member and carries that id. -/
theorem findJob_eq_some_facts (jobs : List JobRecord) (id : Nat) (r : JobRecord)
    (h : findJob jobs id = some r) : r ∈ jobs ∧ r.id = id := by
  refine ⟨List.mem_of_find?_eq_some h, ?_⟩
  have hp := List.find?_some h
  simpa using hp

/-- Updating exactly the records with a given id commutes with looking
that id up, for any id-preserving update. -/
theorem findJob_map_update (l : List JobRecord) (id : Nat) (g : JobRecord → JobRecord)
    (hg : ∀ j, (g j).id = j.id) :
    findJob (l.map fun j => if j.id = id then g j else j) id = (findJob l id).map g := by
  induction l with
  | nil => rfl
  | cons j l ih =>
    by_cases h : j.id = id
    · have hgj : ((g j).id == id) = true := by
        rw [hg j]
        exact Nat.beq_eq_true_eq _ _ ▸ h
      simp [findJob, h, hgj] at ih ⊢
    · have hj : (j.id == id) = false := by
        simp [Nat.beq_eq_true_eq]
        exact h
      simp [findJob, h, hj] at ih ⊢
      exact ih

/-- Two records of an invariant-respecting state that are both running
are the same record. -/
theorem inv_single_running (s : EngineState) (h : EngineInv s) :
    ∀ r1 ∈ s.jobs, ∀ r2 ∈ s.jobs,
      r1.status = Status.running → r2.status = Status.running → r1 = r2 := by
  intro r1 h1m r2 h2m hr1 hr2
  obtain ⟨-, h2, h3⟩ := h
  have e1 := h3 r1 h1m hr1
  have e2 := h3 r2 h2m hr2
  rw [e1] at e2
  exact List.inj_on_of_nodup_map h2 h1m h2m (Option.some.inj e2)

/-- Finalization preserves the engine invariant for any terminal target
status. -/
theorem inv_finalize (s : EngineState) (id : Nat) (st : Status) (code : Option Int)
    (out : String) (hst : st ≠ Status.running) (h : EngineInv s) :
    EngineInv (finalizeCompletion s id st code out) := by
  unfold finalizeCompletion
  cases hf : findJob s.jobs id with
  | none => exact h
  | some r =>
    by_cases hr : r.status = Status.running
    · obtain ⟨h1, h2, h3⟩ := h
      simp only [hr, if_true]
      refine ⟨?_, ?_, ?_⟩
      · intro x hx
        rcases List.mem_map.mp hx with ⟨j, hj, rfl⟩
        by_cases hje : j.id = id
        · simpa [hje, finalizeRecord] using h1 j hj
        · simpa [hje] using h1 j hj
      · have hids :
            ((s.jobs.map fun j => if j.id = id then finalizeRecord j st code out else j).map
              fun x => x.id) = s.jobs.map fun x => x.id := by
          rw [List.map_map]
          apply List.map_congr_left
          intro j hj
          by_cases hje : j.id = id <;> simp [hje, finalizeRecord]
        simpa [hids] using h2
      · intro x hx hxrun
        rcases List.mem_map.mp hx with ⟨j, hj, rfl⟩
        by_cases hje : j.id = id
        · exfalso
          have hstat : (if j.id = id then finalizeRecord j st code out else j).status = st := by
            simp [hje, finalizeRecord]
          rw [hstat] at hxrun
          exact hst hxrun
        · simp only [hje, if_neg, ite_false] at hxrun ⊢
          have hl := h3 j hj hxrun
          by_cases hlock : s.lock = some id
          · exfalso
            rw [hl] at hlock
            exact hje (Option.some.inj hlock)
          · simp [hlock, hl, hje]
    · simpa [hr] using h

/-- Backgrounding a fresh job preserves the engine invariant when the
lock is free. -/
theorem inv_backgroundStart (s : EngineState) (cmd : String) (now : Nat)
    (hl : s.lock = none) (h : EngineInv s) :
    EngineInv (backgroundStart s cmd now).1 := by
  obtain ⟨h1, h2, h3⟩ := h
  refine ⟨?_, ?_, ?_⟩
  · intro r hr
    rcases List.mem_append.mp hr with hr | hr
    · exact Nat.lt_succ_of_lt (h1 r hr)
    · simp only [List.mem_singleton] at hr
      subst hr
      exact Nat.lt_succ_self _
  · simp only [backgroundStart, List.map_append, List.map_cons, List.map_nil]
    rw [List.nodup_append]
    refine ⟨h2, List.nodup_singleton _, ?_⟩
    intro a ha hb
    simp only [newRecord, List.mem_singleton] at hb
    rcases List.mem_map.mp ha with ⟨j, hj, rfl⟩
    exact absurd (hb ▸ h1 j hj) (Nat.lt_irrefl _)
  · intro r hr hrun
    rcases List.mem_append.mp hr with hr | hr
    · exact absurd (h3 r hr hrun) (by simp [hl])
    · simp only [List.mem_singleton] at hr
      subst hr
      rfl

/-- The Dispatcher's start path preserves the engine invariant. -/
theorem inv_start (s : EngineState) (cmd : String) (authorized : Bool)
    (maxWaitMs now : Nat) (ev : ProcEvent) (h : EngineInv s) :
    EngineInv (handleStart s cmd authorized maxWaitMs now ev).1 := by
  obtain ⟨h1, h2, h3⟩ := h
  unfold handleStart
  cases hl : s.lock with
  | some i => exact ⟨h1, h2, h3⟩
  | none =>
    by_cases ha : authorized = false
    · simp only [ha, if_true]
      exact ⟨h1, h2, h3⟩
    · simp only [ha, if_false]
      have hfreshNodup :
          ∀ st code out,
            ((s.jobs ++ [newRecord s.nextId cmd now st code out]).map fun x => x.id).Nodup := by
        intro st code out
        simp only [List.map_append, List.map_cons, List.map_nil]
        rw [List.nodup_append]
        refine ⟨h2, List.nodup_singleton _, ?_⟩
        intro a haa hb
        simp only [newRecord, List.mem_singleton] at hb
        rcases List.mem_map.mp haa with ⟨j, hj, rfl⟩
        exact absurd (hb ▸ h1 j hj) (Nat.lt_irrefl _)
      have hfreshBound :
          ∀ st code out, ∀ r ∈ s.jobs ++ [newRecord s.nextId cmd now st code out],
            r.id < s.nextId + 1 := by
        intro st code out r hr
        rcases List.mem_append.mp hr with hr | hr
        · exact Nat.lt_succ_of_lt (h1 r hr)
        · simp only [List.mem_singleton] at hr
          subst hr
          exact Nat.lt_succ_self _
      have hnorun : ∀ r ∈ s.jobs, r.status = Status.running → False := by
        intro r hr hrun
        exact absurd (h3 r hr hrun) (by simp [hl])
      cases ev with
      | spawnFail =>
        refine ⟨hfreshBound _ _ _, hfreshNodup _ _ _, ?_⟩
        intro r hr hrun
        rcases List.mem_append.mp hr with hr | hr
        · exact absurd hrun (fun hx => hnorun r hr hx)
        · simp only [List.mem_singleton] at hr
          subst hr
          exact absurd hrun (by simp [newRecord])
      | finishes code out =>
        by_cases hmw : maxWaitMs = 0
        · simp only [hmw, if_true]
          exact inv_backgroundStart s cmd now hl ⟨h1, h2, h3⟩
        · simp only [hmw, if_false]
          refine ⟨hfreshBound _ _ _, hfreshNodup _ _ _, ?_⟩
          intro r hr hrun
          rcases List.mem_append.mp hr with hr | hr
          · exact absurd hrun (fun hx => hnorun r hr hx)
          · simp only [List.mem_singleton] at hr
            subst hr
            exact absurd hrun (by simp [newRecord])
      | timesOut => exact inv_backgroundStart s cmd now hl ⟨h1, h2, h3⟩

/-- The Dispatcher's poll path preserves the engine invariant. -/
theorem inv_poll (s : EngineState) (target : Option Nat)
    (runnerExit : Option (Int × String)) (h : EngineInv s) :
    EngineInv (handlePoll s target runnerExit).1 := by
  unfold handlePoll
  cases resolvePollTarget s target with
  | none => exact h
  | some r =>
    by_cases hr : r.status = Status.running
    · cases runnerExit with
      | none => simpa [hr] using h
      | some p =>
        simp only [hr, if_true]
        exact inv_finalize s r.id Status.completed (some p.1) p.2 (by simp) h
    · simpa [hr] using h

/-- The Dispatcher's stop path preserves the engine invariant. -/
theorem inv_stop (s : EngineState) (target : Option Nat) (h : EngineInv s) :
    EngineInv (handleStop s target).1 := by
  unfold handleStop
  cases resolveStopTarget s target with
  | none => exact h
  | some r =>
    by_cases hr : r.status = Status.running
    · simp only [hr, if_true]
      exact inv_finalize s r.id Status.stopped none "" (by simp) h
    · simpa [hr] using h

/-- The completion handler preserves the engine invariant. -/
theorem inv_complete (s : EngineState) (id : Nat) (code : Int) (out : String)
    (h : EngineInv s) : EngineInv (completionHandler s id code out) :=
  inv_finalize s id Status.completed (some code) out (by simp) h

/-- Every reachable engine state satisfies the invariant. -/
theorem reachable_inv (s : EngineState) (h : Reachable s) : EngineInv s := by
  induction h with
  | init =>
    refine ⟨?_, ?_, ?_⟩ <;> simp [initState]
  | start s cmd authorized maxWaitMs now ev _ ih => exact inv_start s cmd authorized maxWaitMs now ev ih
  | poll s target runnerExit _ ih => exact inv_poll s target runnerExit ih
  | stop s target _ ih => exact inv_stop s target ih
  | complete s id code out _ ih => exact inv_complete s id code out ih

/-- Finalization never touches the AI agent's run state. -/
theorem finalize_agentRun (s : EngineState) (id : Nat) (st : Status)
    (code : Option Int) (out : String) :
    (finalizeCompletion s id st code out).agentRun = s.agentRun := by
  unfold finalizeCompletion
  cases findJob s.jobs id with
  | none => rfl
  | some r => by_cases hr : r.status = Status.running <;> simp [hr]

/-- The stop path never touches the AI agent's run state, on any input. -/
theorem stop_agentRun_frame (s : EngineState) (target : Option Nat) :
    (handleStop s target).1.agentRun = s.agentRun := by
  unfold handleStop
  cases resolveStopTarget s target with
  | none => rfl
  | some r =>
    by_cases hr : r.status = Status.running
    · simp [hr, finalize_agentRun]
    · simp [hr]

/-- A start under a free lock with elevation granted and a timed-out
race is exactly a background start. -/
theorem handleStart_timesOut_eq (s : EngineState) (cmd : String) (maxWaitMs now : Nat)
    (hlock : s.lock = none) :
    handleStart s cmd true maxWaitMs now ProcEvent.timesOut = backgroundStart s cmd now := by
  unfold handleStart
  rw [hlock]
  simp

/-- C2: a start whose process finishes before a positive `maxWaitMs`
yields the inline reply carrying the job's exit code and output, and the
Job Lock is empty immediately after that reply is produced. -/
theorem c2_fast_start_inline (s : EngineState) (cmd : String) (maxWaitMs now : Nat)
    (code : Int) (out : String) (hlock : s.lock = none) (hmw : 0 < maxWaitMs) :
    (handleStart s cmd true maxWaitMs now (ProcEvent.finishes code out)).2
        = Reply.inlineDone code out ∧
    (handleStart s cmd true maxWaitMs now (ProcEvent.finishes code out)).1.lock = none := by
  have hmw0 : maxWaitMs ≠ 0 := Nat.pos_iff_ne_zero.mp hmw
  unfold handleStart
  rw [hlock]
  simp [hmw0, hlock]

/-- C2 witness: the fast `echo hi` scenario of the tests. -/
theorem c2_fast_start_inline_witness :
    initState.lock = none ∧ 0 < 2000 ∧
    ((handleStart initState "echo hi" true 2000 0 (ProcEvent.finishes 0 "hi")).2
        = Reply.inlineDone 0 "hi" ∧
      (handleStart initState "echo hi" true 2000 0 (ProcEvent.finishes 0 "hi")).1.lock = none) :=
  ⟨rfl, by decide, c2_fast_start_inline initState "echo hi" 2000 0 0 "hi" rfl (by decide)⟩

/-- C4: with `maxWaitMs = 0` the race is skipped and the very first
reply for a (successfully spawned) start is always the backgrounded
acknowledgement carrying the job id — never an inline completion, even
when the process would have finished at once. -/
theorem c4_zero_wait_backgrounds (s : EngineState) (cmd : String) (now : Nat)
    (code : Int) (out : String) (hlock : s.lock = none) :
    (handleStart s cmd true 0 now (ProcEvent.finishes code out)).2
        = Reply.backgrounded s.nextId ∧
    (handleStart s cmd true 0 now ProcEvent.timesOut).2 = Reply.backgrounded s.nextId := by
  unfold handleStart
  rw [hlock]
  simp [backgroundStart]

/-- C4 witness: starting `echo hi` with `maxWaitMs = 0` in the empty
state backgrounds immediately. -/
theorem c4_zero_wait_backgrounds_witness :
    initState.lock = none ∧
    ((handleStart initState "echo hi" true 0 0 (ProcEvent.finishes 0 "hi")).2
        = Reply.backgrounded initState.nextId ∧
      (handleStart initState "echo hi" true 0 0 ProcEvent.timesOut).2
        = Reply.backgrounded initState.nextId) :=
  ⟨rfl, c4_zero_wait_backgrounds initState "echo hi" 0 0 "hi" rfl⟩

/-- C8: a start whose elevated-execution authorization is denied (under
a free lock, where the authorization is actually consulted) returns the
explanatory reply and performs no side effect at all: the state —
records, lock, spawned processes — is returned unchanged. -/
theorem c8_permission_denied_no_effect (s : EngineState) (cmd : String)
    (maxWaitMs now : Nat) (ev : ProcEvent) (hlock : s.lock = none) :
    handleStart s cmd false maxWaitMs now ev = (s, Reply.permissionDenied) := by
  unfold handleStart
  rw [hlock]
  simp

/-- C8 witness: a denied `echo hi` in the empty state. -/
theorem c8_permission_denied_no_effect_witness :
    initState.lock = none ∧
    handleStart initState "echo hi" false 2000 0 (ProcEvent.finishes 0 "hi")
      = (initState, Reply.permissionDenied) :=
  ⟨rfl, c8_permission_denied_no_effect initState "echo hi" 2000 0 (ProcEvent.finishes 0 "hi") rfl⟩

/-- C7: a poll or stop that references no known job — an unknown id, or
any lookup when no job has ever been started — reports not-found and
returns the state entirely unchanged (lock, records and process state
included). -/
theorem c7_not_found_no_mutation (s : EngineState) (id : Nat)
    (env : Option (Int × String)) (hnone : findJob s.jobs id = none) :
    handlePoll s (some id) env = (s, Reply.notFound) ∧
    handleStop s (some id) = (s, Reply.notFound) ∧
    (s.jobs = [] → handlePoll s none env = (s, Reply.notFound)) ∧
    (s.jobs = [] → handleStop s none = (s, Reply.notFound)) := by
  refine ⟨?_, ?_, ?_, ?_⟩
  · simp [handlePoll, resolvePollTarget, hnone]
  · simp [handleStop, resolveStopTarget, hnone]
  · intro hjobs
    simp [handlePoll, resolvePollTarget, hjobs]
  · intro hjobs
    cases hl : s.lock with
    | none => simp [handleStop, resolveStopTarget, hl]
    | some j => simp [handleStop, resolveStopTarget, hl, hjobs, findJob]

/-- C7 witness: polling and stopping id 5 in the empty state. -/
theorem c7_not_found_no_mutation_witness :
    findJob initState.jobs 5 = none ∧
    (handlePoll initState (some 5) none = (initState, Reply.notFound) ∧
      handleStop initState (some 5) = (initState, Reply.notFound) ∧
      (initState.jobs = [] → handlePoll initState none none = (initState, Reply.notFound)) ∧
      (initState.jobs = [] → handleStop initState none = (initState, Reply.notFound))) :=
  ⟨rfl, c7_not_found_no_mutation initState 5 none rfl⟩

/-- C5: stopping a running job confirms with its id, a later poll for
that id reports status `stopped`, and the stop path leaves the AI
agent's run state untouched — on this call and on every possible stop
call (the two cancellation domains never meet). -/
theorem c5_stop_reports_stopped_agent_untouched (s : EngineState) (id : Nat) (r : JobRecord)
    (hfind : findJob s.jobs id = some r) (hrun : r.status = Status.running) :
    (handleStop s (some id)).2 = Reply.stopConfirmed id ∧
    (handleStop s (some id)).1.agentRun = s.agentRun ∧
    (∀ s0 : EngineState, ∀ target : Option Nat,
        (handleStop s0 target).1.agentRun = s0.agentRun) ∧
    (∀ env, (handlePoll (handleStop s (some id)).1 (some id) env).2
        = Reply.pollStatus Status.stopped none r.outputTail) := by
  obtain ⟨hmem, hid⟩ := findJob_eq_some_facts s.jobs id r hfind
  have hstop : handleStop s (some id)
      = (finalizeCompletion s id Status.stopped none "", Reply.stopConfirmed id) := by
    simp [handleStop, resolveStopTarget, hfind, hrun, hid]
  have hfind2 : findJob (finalizeCompletion s id Status.stopped none "").jobs id
      = some (finalizeRecord r Status.stopped none "") := by
    have hfin : finalizeCompletion s id Status.stopped none ""
        = { s with
            jobs := s.jobs.map fun j =>
              if j.id = id then finalizeRecord j Status.stopped none "" else j,
            lock := if s.lock = some id then none else s.lock } := by
      simp [finalizeCompletion, hfind, hrun]
    rw [hfin]
    simpa [hfind] using
      findJob_map_update s.jobs id (fun j => finalizeRecord j Status.stopped none "")
        (fun j => rfl)
  refine ⟨by rw [hstop], stop_agentRun_frame s (some id), stop_agentRun_frame, ?_⟩
  intro env
  rw [hstop]
  simp [handlePoll, resolvePollTarget, hfind2, finalizeRecord, String.append_empty]

/-- C5 witness: stop the backgrounded `sleep 60` job of the test
scenario and poll it. -/
theorem c5_stop_reports_stopped_agent_untouched_witness :
    findJob (handleStart initState "sleep 60" true 0 0 ProcEvent.timesOut).1.jobs 0
        = some (newRecord 0 "sleep 60" 0 Status.running none "") ∧
    ((handleStop (handleStart initState "sleep 60" true 0 0 ProcEvent.timesOut).1 (some 0)).2
        = Reply.stopConfirmed 0 ∧
      (handleStop (handleStart initState "sleep 60" true 0 0 ProcEvent.timesOut).1
            (some 0)).1.agentRun
        = (handleStart initState "sleep 60" true 0 0 ProcEvent.timesOut).1.agentRun ∧
      (∀ s0 : EngineState, ∀ target : Option Nat,
          (handleStop s0 target).1.agentRun = s0.agentRun) ∧
      (∀ env,
          (handlePoll
              (handleStop (handleStart initState "sleep 60" true 0 0 ProcEvent.timesOut).1
                (some 0)).1
              (some 0) env).2
            = Reply.pollStatus Status.stopped none "")) :=
  ⟨rfl,
    c5_stop_reports_stopped_agent_untouched
      (handleStart initState "sleep 60" true 0 0 ProcEvent.timesOut).1 0
      (newRecord 0 "sleep 60" 0 Status.running none "") rfl rfl⟩

/-- C6: finalization is idempotent. On a record still running, the
completion handler performs the terminal transition and releases the Job
Lock exactly when the lock currently holds this record's id; on a record
already terminal, the completion handler, a reconciling poll and a stop
all leave the state — record status and lock included — exactly as it
was. -/
theorem c6_idempotent_finalization (s : EngineState) (id : Nat) (r : JobRecord)
    (hfind : findJob s.jobs id = some r) :
    (r.status = Status.running → ∀ code out,
        (completionHandler s id code out).lock
            = (if s.lock = some id then none else s.lock) ∧
        findJob (completionHandler s id code out).jobs id
            = some (finalizeRecord r Status.completed (some code) out)) ∧
    (r.status ≠ Status.running →
      (∀ code out, completionHandler s id code out = s) ∧
      (∀ env, handlePoll s (some id) env
          = (s, Reply.pollStatus r.status r.exitCode r.outputTail)) ∧
      handleStop s (some id) = (s, Reply.nothingToStop)) := by
  constructor
  · intro hrun code out
    have hfin : completionHandler s id code out
        = { s with
            jobs := s.jobs.map fun j =>
              if j.id = id then finalizeRecord j Status.completed (some code) out else j,
            lock := if s.lock = some id then none else s.lock } := by
      simp [completionHandler, finalizeCompletion, hfind, hrun]
    constructor
    · rw [hfin]
    · rw [hfin]
      simpa [hfind] using
        findJob_map_update s.jobs id
          (fun j => finalizeRecord j Status.completed (some code) out) (fun j => rfl)
  · intro hterm
    refine ⟨?_, ?_, ?_⟩
    · intro code out
      simp [completionHandler, finalizeCompletion, hfind, hterm]
    · intro env
      simp [handlePoll, resolvePollTarget, hfind, hterm]
    · simp [handleStop, resolveStopTarget, hfind, hterm]

/-- C6 witness: the already-completed `echo hi` record absorbs repeated
finalization, reconciliation and stop without any state change. -/
theorem c6_idempotent_finalization_witness :
    findJob (handleStart initState "echo hi" true 2000 0 (ProcEvent.finishes 0 "hi")).1.jobs 0
        = some (newRecord 0 "echo hi" 0 Status.completed (some 0) "hi") ∧
    ((∀ code out,
        completionHandler (handleStart initState "echo hi" true 2000 0
            (ProcEvent.finishes 0 "hi")).1 0 code out
          = (handleStart initState "echo hi" true 2000 0 (ProcEvent.finishes 0 "hi")).1) ∧
      (∀ env,
          handlePoll (handleStart initState "echo hi" true 2000 0
              (ProcEvent.finishes 0 "hi")).1 (some 0) env
            = ((handleStart initState "echo hi" true 2000 0 (ProcEvent.finishes 0 "hi")).1,
                Reply.pollStatus Status.completed (some 0) "hi")) ∧
      handleStop (handleStart initState "echo hi" true 2000 0
          (ProcEvent.finishes 0 "hi")).1 (some 0)
        = ((handleStart initState "echo hi" true 2000 0 (ProcEvent.finishes 0 "hi")).1,
            Reply.nothingToStop)) :=
  ⟨rfl,
    (c6_idempotent_finalization
        (handleStart initState "echo hi" true 2000 0 (ProcEvent.finishes 0 "hi")).1 0
        (newRecord 0 "echo hi" 0 Status.completed (some 0) "hi") rfl).2 (by decide)⟩

/-- C3: a job that exceeds `maxWaitMs` yields the backgrounded
acknowledgement carrying its id, and a poll with that id issued after
the process has exited finalizes the still-running record (terminal
transition plus lock release) and returns its exit code and output in
one step. -/
theorem c3_background_then_poll (s : EngineState) (cmd : String) (maxWaitMs now : Nat)
    (code : Int) (out : String) (hlock : s.lock = none)
    (hfresh : ∀ r ∈ s.jobs, r.id < s.nextId) :
    (handleStart s cmd true maxWaitMs now ProcEvent.timesOut).2
        = Reply.backgrounded s.nextId ∧
    (handlePoll (handleStart s cmd true maxWaitMs now ProcEvent.timesOut).1
        (some s.nextId) (some (code, out))).2
      = Reply.pollStatus Status.completed (some code) out ∧
    (handlePoll (handleStart s cmd true maxWaitMs now ProcEvent.timesOut).1
        (some s.nextId) (some (code, out))).1.lock = none ∧
    findJob (handlePoll (handleStart s cmd true maxWaitMs now ProcEvent.timesOut).1
        (some s.nextId) (some (code, out))).1.jobs s.nextId
      = some (newRecord s.nextId cmd now Status.completed (some code) out) := by
  have hstart := handleStart_timesOut_eq s cmd maxWaitMs now hlock
  have hnoneOld : List.find? (fun x => x.id == s.nextId) s.jobs = none := by
    rw [List.find?_eq_none]
    intro x hx
    simp only [beq_iff_eq]
    intro hxx
    exact absurd (hxx ▸ hfresh x hx) (Nat.lt_irrefl _)
  have hfindNew : findJob (backgroundStart s cmd now).1.jobs s.nextId
      = some (newRecord s.nextId cmd now Status.running none "") := by
    simp [backgroundStart, findJob, List.find?_append, hnoneOld, newRecord]
  have hpoll : handlePoll (backgroundStart s cmd now).1 (some s.nextId) (some (code, out))
      = (finalizeCompletion (backgroundStart s cmd now).1 s.nextId Status.completed
            (some code) out,
         Reply.pollStatus Status.completed (some code) out) := by
    simp [handlePoll, resolvePollTarget, hfindNew, newRecord, String.empty_append]
  have hfin : finalizeCompletion (backgroundStart s cmd now).1 s.nextId Status.completed
        (some code) out
      = { (backgroundStart s cmd now).1 with
          jobs := (backgroundStart s cmd now).1.jobs.map fun j =>
            if j.id = s.nextId then finalizeRecord j Status.completed (some code) out else j,
          lock := none } := by
    unfold finalizeCompletion
    rw [hfindNew]
    simp [newRecord, backgroundStart]
  have hfindFin : findJob (finalizeCompletion (backgroundStart s cmd now).1 s.nextId
        Status.completed (some code) out).jobs s.nextId
      = some (newRecord s.nextId cmd now Status.completed (some code) out) := by
    rw [hfin]
    have hupd := findJob_map_update (backgroundStart s cmd now).1.jobs s.nextId
      (fun j => finalizeRecord j Status.completed (some code) out) (fun j => rfl)
    simp only [] at hupd
    rw [hupd, hfindNew]
    simp [finalizeRecord, newRecord, String.empty_append]
  refine ⟨?_, ?_, ?_, ?_⟩
  · rw [hstart]
    rfl
  · rw [hstart, hpoll]
  · rw [hstart, hpoll, hfin]
  · rw [hstart, hpoll]
    exact hfindFin

/-- C3 witness: the backgrounded `echo hi` of the test scenario, polled
after the process exited. -/
theorem c3_background_then_poll_witness :
    initState.lock = none ∧
    ((handleStart initState "echo hi" true 0 0 ProcEvent.timesOut).2
        = Reply.backgrounded 0 ∧
      (handlePoll (handleStart initState "echo hi" true 0 0 ProcEvent.timesOut).1
          (some 0) (some (0, "hi"))).2
        = Reply.pollStatus Status.completed (some 0) "hi" ∧
      (handlePoll (handleStart initState "echo hi" true 0 0 ProcEvent.timesOut).1
          (some 0) (some (0, "hi"))).1.lock = none ∧
      findJob (handlePoll (handleStart initState "echo hi" true 0 0 ProcEvent.timesOut).1
          (some 0) (some (0, "hi"))).1.jobs 0
        = some (newRecord 0 "echo hi" 0 Status.completed (some 0) "hi")) :=
  ⟨rfl,
    c3_background_then_poll initState "echo hi" 0 0 0 "hi" rfl
      (by intro r hr; simp [initState] at hr)⟩

/-- C1: in every reachable engine state at most one Job Record is
running (process-wide, whatever chat or provider the requests came
from), and any start arriving while the Job Lock is held gets the
already-running reply naming the running job's id and changes nothing —
no record, no spawn, no lock movement. -/
theorem c1_single_running_job (s : EngineState) (hs : Reachable s) :
    (∀ r1 ∈ s.jobs, ∀ r2 ∈ s.jobs,
        r1.status = Status.running → r2.status = Status.running → r1 = r2) ∧
    (∀ j, s.lock = some j → ∀ cmd authorized maxWaitMs now ev,
        handleStart s cmd authorized maxWaitMs now ev = (s, Reply.alreadyRunning j)) := by
  refine ⟨inv_single_running s (reachable_inv s hs), ?_⟩
  intro j hj cmd authorized maxWaitMs now ev
  unfold handleStart
  rw [hj]

/-- C1 witness: with the `sleep 60` job backgrounded, a concurrent
`echo second` start only observes already-running. -/
theorem c1_single_running_job_witness :
    handleStart (handleStart initState "sleep 60" true 0 0 ProcEvent.timesOut).1
        "echo second" true 2000 5 ProcEvent.timesOut
      = ((handleStart initState "sleep 60" true 0 0 ProcEvent.timesOut).1,
          Reply.alreadyRunning 0) :=
  (c1_single_running_job (handleStart initState "sleep 60" true 0 0 ProcEvent.timesOut).1
      (Reachable.start initState "sleep 60" true 0 0 ProcEvent.timesOut Reachable.init)).2
    0 rfl "echo second" true 2000 5 ProcEvent.timesOut

/-- The clamped percentage always lies in [0, 100]. -/
theorem clampPercent_bounds (v : JSNum) : 0 ≤ clampPercent v ∧ clampPercent v ≤ 100 := by
  unfold clampPercent
  constructor
  · exact le_max_left _ _
  · apply max_le
    · norm_num
    · exact min_le_left _ _

/-- C10: whatever value a window's `usedPercent` holds — finite,
negative, above 100, or non-finite — `clampPercent` maps non-finite
inputs to 0 and clamps finite inputs into [0, 100], so the remaining
percentage rendered as `N% left` by `formatWindowShort` and
`formatUsageReportLines` (`windowRemaining`) always lies in [0, 100]. -/
theorem c10_remaining_percent_in_range (v : JSNum) (w : UsageWindow) :
    (v.isFinite = false → clampPercent v = 0) ∧
    (v.isFinite = true → clampPercent v = max 0 (min 100 v.toQ)) ∧
    0 ≤ clampPercent v ∧ clampPercent v ≤ 100 ∧
    0 ≤ windowRemaining w ∧ windowRemaining w ≤ 100 := by
  refine ⟨?_, ?_, (clampPercent_bounds v).1, (clampPercent_bounds v).2,
    (clampPercent_bounds _).1, (clampPercent_bounds _).2⟩
  · intro h
    simp only [clampPercent, h]
    norm_num
  · intro h
    simp only [clampPercent, h]
    norm_num

/-- C10 witness: `NaN` clamps to 0 and an `Infinity` `usedPercent` still
renders a remaining percentage inside [0, 100]. -/
theorem c10_remaining_percent_in_range_witness :
    (JSNum.nan.isFinite = false ∧ clampPercent JSNum.nan = 0) ∧
    (0 ≤ windowRemaining { label := "x", usedPercent := JSNum.inf, resetAt := none } ∧
      windowRemaining { label := "x", usedPercent := JSNum.inf, resetAt := none } ≤ 100) :=
  ⟨⟨rfl,
      (c10_remaining_percent_in_range JSNum.nan
          { label := "x", usedPercent := JSNum.inf, resetAt := none }).1 rfl⟩,
    (c10_remaining_percent_in_range JSNum.nan
        { label := "x", usedPercent := JSNum.inf, resetAt := none }).2.2.2.2⟩

/-- A summary-line part of the form `displayName ++ " " ++ rest` is
never the empty string, so `.filter(Boolean)` keeps it. -/
theorem summary_part_ne_empty (d rest : String) : (d ++ " " ++ rest).isEmpty = false := by
  cases h : (d ++ " " ++ rest).isEmpty with
  | false => rfl
  | true =>
    exfalso
    have he : d ++ " " ++ rest = "" := (String.isEmpty_iff _).mp h
    have hlen : (d ++ " " ++ rest).length = ("" : String).length := by rw [he]
    rw [String.length_append, String.length_append] at hlen
    have h1 : (" " : String).length = 1 := rfl
    have h0 : ("" : String).length = 0 := rfl
    rw [h1, h0] at hlen
    omega

/-- A provider snapshot fails the summary filter exactly when it has no
windows or a (truthy, i.e. non-empty) error. -/
theorem summary_pred_false_iff (e : ProviderUsageSnapshot) :
    ¬((!e.windows.isEmpty && !strTruthy e.error) = true) ↔
      (e.windows = [] ∨ strTruthy e.error = true) := by
  constructor
  · intro h
    by_cases hw : e.windows = []
    · exact Or.inl hw
    · right
      by_cases ht : strTruthy e.error = true
      · exact ht
      · exact absurd (by simp [List.isEmpty_eq_false.mpr hw, ht]) h
  · intro h hcontra
    rw [Bool.and_eq_true] at hcontra
    rcases h with hw | ht
    · rw [hw] at hcontra
      simp at hcontra
    · rw [ht] at hcontra
      simp at hcontra

/-- The summary line with default options is `none` exactly when every
provider has no windows or a (truthy) error. -/
theorem summaryLine_none_iff (summary : UsageSummary) :
    formatUsageSummaryLine summary none none = none ↔
      ∀ e ∈ summary.providers, e.windows = [] ∨ strTruthy e.error = true := by
  have htake :
      (summary.providers.filter fun e => !e.windows.isEmpty && !strTruthy e.error).take
          summary.providers.length
        = summary.providers.filter fun e => !e.windows.isEmpty && !strTruthy e.error :=
    List.take_of_length_le (List.length_filter_le _ _)
  have hmain : formatUsageSummaryLine summary none none = none ↔
      (summary.providers.filter fun e => !e.windows.isEmpty && !strTruthy e.error) = [] := by
    unfold formatUsageSummaryLine
    simp only [Option.getD_none, htake]
    by_cases hl : (summary.providers.filter fun e => !e.windows.isEmpty && !strTruthy e.error) = []
    · simp [hl]
    · have hfe : (summary.providers.filter
          fun e => !e.windows.isEmpty && !strTruthy e.error).isEmpty = false :=
        List.isEmpty_eq_false.mpr hl
      obtain ⟨e0, rest, hsplit⟩ := List.exists_cons_of_ne_nil hl
      have he0 : e0 ∈ summary.providers.filter
          fun e => !e.windows.isEmpty && !strTruthy e.error := by
        rw [hsplit]
        exact List.mem_cons_self _ _
      have hp := (List.mem_filter.mp he0).2
      have hw : e0.windows ≠ [] := by
        intro hww
        rw [Bool.and_eq_true] at hp
        have h1 := hp.1
        rw [hww] at h1
        simp at h1
      obtain ⟨w0, ws0, hws⟩ := List.exists_cons_of_ne_nil hw
      have hpick : ∃ w1, pickPrimaryWindow e0.windows = some w1 := by
        rw [hws]
        exact ⟨_, rfl⟩
      obtain ⟨w1, hw1⟩ := hpick
      have hmem2 :
          (e0.displayName ++ " " ++ formatWindowShort w1 none) ∈
            (((summary.providers.filter fun e => !e.windows.isEmpty && !strTruthy e.error).filterMap
              fun e =>
                match pickPrimaryWindow e.windows with
                | none => none
                | some w => some (e.displayName ++ " " ++ formatWindowShort w none)).filter
              fun s => !s.isEmpty) := by
        apply List.mem_filter.mpr
        refine ⟨List.mem_filterMap.mpr ⟨e0, he0, by rw [hw1]⟩, ?_⟩
        simp [summary_part_ne_empty]
      have hpe := List.isEmpty_eq_false.mpr (List.ne_nil_of_mem hmem2)
      simp [hfe, hpe, hl]
  rw [hmain, List.filter_eq_nil_iff]
  simp only [summary_pred_false_iff]

/-- On finite values JavaScript `>` is the rational strict order. -/
theorem jgt_finite_iff (a b : JSNum) (ha : a.isFinite = true) (hb : b.isFinite = true) :
    jgt a b = true ↔ b.toQ < a.toQ := by
  cases a <;> cases b <;> simp_all [jgt, JSNum.isFinite, JSNum.toQ]

/-- On finite values JavaScript `>=` is the rational order. -/
theorem jge_finite_iff (a b : JSNum) (ha : a.isFinite = true) (hb : b.isFinite = true) :
    jge a b = true ↔ b.toQ ≤ a.toQ := by
  cases a <;> cases b <;> simp_all [jge, JSNum.isFinite, JSNum.toQ]

/-- What the `reduce` of `pickPrimaryWindow` computes over finite
`usedPercent` values: either the accumulator survives and dominates
every element, or the result is an element strictly above the
accumulator and everything before it, and at least every element after
it. -/
theorem foldl_pick_spec (ws : List UsageWindow) (b : UsageWindow)
    (hb : b.usedPercent.isFinite = true)
    (hws : ∀ w ∈ ws, w.usedPercent.isFinite = true) :
    (ws.foldl (fun best next => if jgt next.usedPercent best.usedPercent then next else best) b
          = b ∧
        ∀ w ∈ ws, w.usedPercent.toQ ≤ b.usedPercent.toQ) ∨
    (∃ pre w suf, ws = pre ++ w :: suf ∧
        ws.foldl (fun best next => if jgt next.usedPercent best.usedPercent then next else best) b
          = w ∧
        b.usedPercent.toQ < w.usedPercent.toQ ∧
        (∀ u ∈ pre, u.usedPercent.toQ < w.usedPercent.toQ) ∧
        (∀ u ∈ suf, u.usedPercent.toQ ≤ w.usedPercent.toQ)) := by
  induction ws generalizing b with
  | nil =>
    left
    exact ⟨rfl, by simp⟩
  | cons x xs ih =>
    have hx : x.usedPercent.isFinite = true := hws x (List.mem_cons_self _ _)
    have hxs : ∀ w ∈ xs, w.usedPercent.isFinite = true := fun w hw =>
      hws w (List.mem_cons_of_mem _ hw)
    by_cases hgt : jgt x.usedPercent b.usedPercent = true
    · have hlt : b.usedPercent.toQ < x.usedPercent.toQ :=
        (jgt_finite_iff _ _ hx hb).mp hgt
      rcases ih x hx hxs with ⟨heq, hall⟩ | ⟨pre, w, suf, hsplit, hres, hbw, hpre, hsuf⟩
      · right
        refine ⟨[], x, xs, by simp, ?_, hlt, by simp, hall⟩
        simp [List.foldl_cons, hgt, heq]
      · right
        refine ⟨x :: pre, w, suf, by rw [hsplit, List.cons_append], ?_, lt_trans hlt hbw, ?_, hsuf⟩
        · simp [List.foldl_cons, hgt, hres]
        · intro u hu
          rcases List.mem_cons.mp hu with rfl | hu
          · exact hbw
          · exact hpre u hu
    · have hle : x.usedPercent.toQ ≤ b.usedPercent.toQ := by
        have := (jgt_finite_iff x.usedPercent b.usedPercent hx hb).not.mp
          (by simpa using hgt)
        exact le_of_not_lt this
      rcases ih b hb hxs with ⟨heq, hall⟩ | ⟨pre, w, suf, hsplit, hres, hbw, hpre, hsuf⟩
      · left
        refine ⟨by simp [List.foldl_cons, hgt, heq], ?_⟩
        intro w hw
        rcases List.mem_cons.mp hw with rfl | hw
        · exact hle
        · exact hall w hw
      · right
        refine ⟨x :: pre, w, suf, by rw [hsplit, List.cons_append],
          by simp [List.foldl_cons, hgt, hres], hbw, ?_, hsuf⟩
        intro u hu
        rcases List.mem_cons.mp hu with rfl | hu
        · exact lt_of_le_of_lt hle hbw
        · exact hpre u hu

/-- C9 (amended): with default options `formatUsageSummaryLine` returns
`null` iff every provider has an empty windows list or a non-empty
error; and for every provider all of whose windows carry finite
`usedPercent` values, the window picked for rendering is a window of
that provider whose `usedPercent` is greater than or equal to that of
every window of the provider — the first such window on ties (every
window before it is strictly below it). -/
theorem c9_summary_line_picks_max (summary : UsageSummary) :
    (formatUsageSummaryLine summary none none = none ↔
      ∀ e ∈ summary.providers, e.windows = [] ∨ strTruthy e.error = true) ∧
    (∀ e ∈ summary.providers, (∀ u ∈ e.windows, u.usedPercent.isFinite = true) →
      ∀ w, pickPrimaryWindow e.windows = some w →
        ∃ pre suf, e.windows = pre ++ w :: suf ∧
          (∀ u ∈ e.windows, jge w.usedPercent u.usedPercent = true) ∧
          (∀ u ∈ pre, jgt w.usedPercent u.usedPercent = true)) := by
  refine ⟨summaryLine_none_iff summary, ?_⟩
  intro e he hfin w hw
  cases hwind : e.windows with
  | nil =>
    rw [hwind] at hw
    exact absurd hw (by simp [pickPrimaryWindow])
  | cons w0 ws0 =>
    rw [hwind] at hw
    have hw2 : ws0.foldl
          (fun best next => if jgt next.usedPercent best.usedPercent then next else best) w0
        = w := by
      simpa [pickPrimaryWindow] using hw
    have h0 : w0.usedPercent.isFinite = true :=
      hfin w0 (by rw [hwind]; exact List.mem_cons_self _ _)
    have hs : ∀ u ∈ ws0, u.usedPercent.isFinite = true := fun u hu =>
      hfin u (by rw [hwind]; exact List.mem_cons_of_mem _ hu)
    have hwfin : w.usedPercent.isFinite = true := by
      apply hfin
      rw [hwind]
      rcases foldl_pick_spec ws0 w0 h0 hs with ⟨heq, -⟩ | ⟨pre, v, suf, hsplit, hres, -, -, -⟩
      · rw [← hw2, heq]
        exact List.mem_cons_self _ _
      · rw [← hw2, hres, hsplit]
        exact List.mem_cons_of_mem _ (List.mem_append.mpr (Or.inr (List.mem_cons_self _ _)))
    rcases foldl_pick_spec ws0 w0 h0 hs with ⟨heq, hall⟩ | ⟨pre, v, suf, hsplit, hres, hbw, hpre, hsuf⟩
    · have hww : w = w0 := by
        rw [← hw2]
        exact heq
      refine ⟨[], ws0, by simp [hww], ?_, by simp⟩
      intro u hu
      have hufin : u.usedPercent.isFinite = true := hfin u (by rw [hwind]; exact hu)
      rcases List.mem_cons.mp hu with rfl | hu2
      · exact (jge_finite_iff _ _ hwfin hufin).mpr (by rw [hww])
      · exact (jge_finite_iff _ _ hwfin hufin).mpr (by rw [hww]; exact hall u hu2)
    · have hwv : w = v := by
        rw [← hw2]
        exact hres
      refine ⟨w0 :: pre, suf, by rw [hsplit, hwv, List.cons_append], ?_, ?_⟩
      · intro u hu
        have hufin : u.usedPercent.isFinite = true := hfin u (by rw [hwind]; exact hu)
        rcases List.mem_cons.mp hu with rfl | hu2
        · exact (jge_finite_iff _ _ hwfin hufin).mpr (by rw [hwv]; exact le_of_lt hbw)
        · rw [hsplit] at hu2
          rcases List.mem_append.mp hu2 with hu3 | hu3
          · exact (jge_finite_iff _ _ hwfin hufin).mpr (by rw [hwv]; exact le_of_lt (hpre u hu3))
          · rcases List.mem_cons.mp hu3 with rfl | hu4
            · exact (jge_finite_iff _ _ hwfin hufin).mpr (by rw [hwv])
            · exact (jge_finite_iff _ _ hwfin hufin).mpr (by rw [hwv]; exact hsuf u hu4)
      · intro u hu
        have hufin : u.usedPercent.isFinite = true := by
          apply hfin u
          rw [hwind]
          rcases List.mem_cons.mp hu with rfl | hu2
          · exact List.mem_cons_self _ _
          · rw [hsplit]
            exact List.mem_cons_of_mem _ (List.mem_append.mpr (Or.inl hu2))
        rcases List.mem_cons.mp hu with rfl | hu2
        · exact (jgt_finite_iff _ _ hwfin hufin).mpr (by rw [hwv]; exact hbw)
        · exact (jgt_finite_iff _ _ hwfin hufin).mpr (by rw [hwv]; exact hpre u hu2)

/-- A window whose `usedPercent` is `NaN`. -/
def c9NanWindow : UsageWindow := { label := "a", usedPercent := JSNum.nan, resetAt := none }

/-- A window used at 50 percent. -/
def c9FiftyWindow : UsageWindow :=
  { label := "b", usedPercent := JSNum.finite 50, resetAt := none }

/-- A provider whose first window carries a `NaN` `usedPercent`. -/
def c9CexProvider : ProviderUsageSnapshot :=
  { provider := "anthropic", displayName := "Claude",
    windows := [c9NanWindow, c9FiftyWindow], plan := none, error := none }

/-- The summary refuting the unrestricted maximality reading. -/
def c9CexSummary : UsageSummary := { updatedAt := 0, providers := [c9CexProvider] }

/-- C9 counterexample: on a summary whose provider has windows
`[NaN, 50]`, a line is produced, the rendered (picked) window is the
`NaN` one, and its `usedPercent` is not greater than or equal to the 50
percent window's — so the claim's unrestricted maximality statement is
false at this input. -/
theorem c9_summary_line_picks_max_counterexample :
    (formatUsageSummaryLine c9CexSummary none none).isSome = true ∧
    pickPrimaryWindow c9CexProvider.windows = some c9NanWindow ∧
    c9FiftyWindow ∈ c9CexProvider.windows ∧
    jge c9NanWindow.usedPercent c9FiftyWindow.usedPercent = false := by
  refine ⟨?_, ?_, ?_, ?_⟩
  · rw [← Option.ne_none_iff_isSome]
    intro h
    have h2 := (summaryLine_none_iff c9CexSummary).mp h c9CexProvider (by simp [c9CexSummary])
    rcases h2 with h2 | h2
    · simp [c9CexProvider] at h2
    · simp [c9CexProvider, strTruthy] at h2
  · rfl
  · simp [c9CexProvider]
  · rfl

/-- The 5h window of the test scenario, 10 percent used. -/
def c9DemoW5 : UsageWindow := { label := "5h", usedPercent := JSNum.finite 10, resetAt := none }

/-- The weekly window of the test scenario, 60 percent used. -/
def c9DemoWeek : UsageWindow :=
  { label := "Week", usedPercent := JSNum.finite 60, resetAt := none }

/-- The Claude provider of the test scenario. -/
def c9DemoProvider : ProviderUsageSnapshot :=
  { provider := "anthropic", displayName := "Claude",
    windows := [c9DemoW5, c9DemoWeek], plan := none, error := none }

/-- The summary of the test scenario. -/
def c9DemoSummary : UsageSummary := { updatedAt := 0, providers := [c9DemoProvider] }

/-- C9 witness: on the test scenario's summary (windows 10 and 60
percent used) the picked window is the most-used `Week` window, and the
line is not `null`. -/
theorem c9_summary_line_picks_max_witness :
    (¬(formatUsageSummaryLine c9DemoSummary none none = none)) ∧
    ∃ pre suf, c9DemoProvider.windows = pre ++ c9DemoWeek :: suf ∧
      (∀ u ∈ c9DemoProvider.windows, jge c9DemoWeek.usedPercent u.usedPercent = true) ∧
      (∀ u ∈ pre, jgt c9DemoWeek.usedPercent u.usedPercent = true) := by
  have hpick : pickPrimaryWindow c9DemoProvider.windows = some c9DemoWeek := by
    show pickPrimaryWindow [c9DemoW5, c9DemoWeek] = some c9DemoWeek
    have hgt : jgt c9DemoWeek.usedPercent c9DemoW5.usedPercent = true := by
      simp only [c9DemoWeek, c9DemoW5, jgt, decide_eq_true_eq]
      norm_num
    simp [pickPrimaryWindow, hgt]
  have hfin : ∀ u ∈ c9DemoProvider.windows, u.usedPercent.isFinite = true := by
    intro u hu
    simp only [c9DemoProvider, List.mem_cons, List.not_mem_nil, or_false] at hu
    rcases hu with rfl | rfl <;> rfl
  constructor
  · rw [(c9_summary_line_picks_max c9DemoSummary).1]
    intro hall
    rcases hall c9DemoProvider (by simp [c9DemoSummary]) with h | h
    · simp [c9DemoProvider] at h
    · simp [c9DemoProvider, strTruthy] at h
  · exact (c9_summary_line_picks_max c9DemoSummary).2 c9DemoProvider
      (by simp [c9DemoSummary]) hfin c9DemoWeek hpick
